import Mathlib

/-
Verification of the mixing-api service (src/index.js) against its
specification.  The JavaScript source is shallowly embedded: JSON/JS
values become the inductive `JSValue`, the ffmpeg argument construction
of `mixAudioFiles` becomes `mixAudioFilesArgs`, the `/mix` request
handler becomes the pure function `processMix` over an oracle describing
the network and the subprocess, and the `cleanup` routine becomes a fold
over an explicit file-system state.
-/

namespace MixingApi

/-- A JavaScript value as it can occur in a decoded JSON request body
(plus `undefined` and `NaN`, which arise from property access and
arithmetic).  Numbers are modelled as rationals: every JSON numeric
literal denotes a decimal fraction, and the claims under study only
involve decimal values. -/
inductive JSValue where
  | vUndefined : JSValue
  | vNull : JSValue
  | vBool (b : Bool) : JSValue
  | vNum (q : ℚ) : JSValue
  | vNaN : JSValue
  | vStr (s : String) : JSValue
  | vArr (elems : List JSValue) : JSValue
  | vObj (fields : List (String × JSValue)) : JSValue

/-- JavaScript truthiness: `undefined`, `null`, `false`, `0`, `NaN` and
the empty string are falsy; every object and array is truthy. -/
def truthy : JSValue → Bool
  | .vUndefined => false
  | .vNull => false
  | .vBool b => b
  | .vNum q => if q = 0 then false else true
  | .vNaN => false
  | .vStr s => if s = "" then false else true
  | .vArr _ => true
  | .vObj _ => true

/-- The JavaScript test `typeof v === 'string'`. -/
def isString : JSValue → Bool
  | .vStr _ => true
  | _ => false

/-- The JavaScript test `typeof v === 'object'`: true for plain objects, arrays and `null`. -/
def isObjTypeof : JSValue → Bool
  | .vNull => true
  | .vArr _ => true
  | .vObj _ => true
  | _ => false

/-- The JavaScript test `Array.isArray(v)`. -/
def isArray : JSValue → Bool
  | .vArr _ => true
  | _ => false

/-- Property access `v[name]` on an object; `undefined` when the field is
absent or the value is not a plain object (array/string element access is
not needed by the handler, which only reads `stem.url`). -/
def getField (v : JSValue) (name : String) : JSValue :=
  match v with
  | .vObj fields => (fields.lookup name).getD .vUndefined
  | _ => .vUndefined

/-- Decimal digits of the fractional part `r / den` (with `0 < r < den`),
produced by long division, bounded by `fuel`.  All numbers reaching this
function in this development have terminating decimal expansions. -/
def renderFracDigits (fuel : Nat) (r den : Nat) : String :=
  match fuel with
  | 0 => ""
  | fuel + 1 =>
    if r = 0 then ""
    else toString (r * 10 / den) ++ renderFracDigits fuel (r * 10 % den) den

/-- JavaScript number-to-string rendering for a (decimal) rational:
an optional sign, the integer part, and a fractional part when non-zero,
e.g. `0.5` renders as `"0.5"` and `2` as `"2"`. -/
def renderRat (q : ℚ) : String :=
  let sign := if q < 0 then "-" else ""
  let n := q.num.natAbs
  let ip := n / q.den
  let r := n % q.den
  if r = 0 then sign ++ toString ip
  else sign ++ toString ip ++ "." ++ renderFracDigits 32 r q.den

mutual

/-- JavaScript `String(v)` coercion, as performed by template-literal
interpolation: strings are taken verbatim, numbers are rendered in
decimal, arrays join their elements with commas (rendering `null` and
`undefined` elements as the empty string), objects render as
`[object Object]`. -/
def jsRender : JSValue → String
  | .vUndefined => "undefined"
  | .vNull => "null"
  | .vBool b => if b then "true" else "false"
  | .vNum q => renderRat q
  | .vNaN => "NaN"
  | .vStr s => s
  | .vArr xs => String.intercalate "," (renderArrElems xs)
  | .vObj _ => "[object Object]"

/-- Element renderings for `Array.prototype.toString`: `null` and
`undefined` elements render as the empty string. -/
def renderArrElems : List JSValue → List String
  | [] => []
  | x :: xs =>
    (match x with
     | .vNull => ""
     | .vUndefined => ""
     | v => jsRender v) :: renderArrElems xs

end

/-- The volume actually used for input `index` by `mixAudioFiles`
(src/index.js line 70): `const volume = volumes[index] || 1.0;` — the
entry at `index` (JavaScript indexing yields `undefined` out of range),
replaced by `1.0` whenever it is falsy. -/
def volumeUsed (volumes : List JSValue) (index : Nat) : JSValue :=
  let v := volumes.getD index .vUndefined
  if truthy v then v else .vNum 1

/-- The per-input fragment appended to `filterComplex` for input `index`
(src/index.js line 71): `[INDEX:a]volume=VOLUME[aINDEX];`. -/
def volumeFilter (volumes : List JSValue) (index : Nat) : String :=
  "[" ++ toString index ++ ":a]volume=" ++ jsRender (volumeUsed volumes index)
    ++ "[a" ++ toString index ++ "];"

/-- The concatenation `[a0][a1]...[a(n-1)]` of mix input labels
(src/index.js line 75). -/
def mixInputsStr (n : Nat) : String :=
  String.join ((List.range n).map (fun index => "[a" ++ toString index ++ "]"))

/-- The full `-filter_complex` argument built by `mixAudioFiles`
(src/index.js lines 68-76) for `n` input files: the per-input volume
fragments accumulated in index order by `+=`, then the amix invocation
`...amix=inputs=n:duration=longest[out]`. -/
def filterComplexStr (n : Nat) (volumes : List JSValue) : String :=
  ((List.range n).foldl (fun acc index => acc ++ volumeFilter volumes index) "")
    ++ mixInputsStr n ++ "amix=inputs=" ++ toString n ++ ":duration=longest[out]"

/-- The complete ffmpeg argument list built by `mixAudioFiles`
(src/index.js lines 60-85): `-i FILE` per input in order, then
`-filter_complex`, `-map [out]`, `-c:a mp3`, `-b:a 192k`, `-y`, and the
output path. -/
def mixAudioFilesArgs (inputFiles : List String) (outputFile : String)
    (volumes : List JSValue) : List String :=
  (inputFiles.flatMap (fun file => ["-i", file])) ++
    ["-filter_complex", filterComplexStr inputFiles.length volumes,
     "-map", "[out]", "-c:a", "mp3", "-b:a", "192k", "-y", outputFile]

/-- JavaScript `String.prototype.split` with a one-character separator,
on character lists: `split('.')` of `""` is `[""]`, separators at the
ends produce empty groups. -/
def splitOnChar (sep : Char) : List Char → List (List Char)
  | [] => [[]]
  | c :: cs =>
    let rest := splitOnChar sep cs
    if c = sep then [] :: rest
    else
      match rest with
      | [] => [[c]]
      | g :: gs => (c :: g) :: gs

/-- The default extension, `"wav"`, as a character list. -/
def wavChars : List Char := ['w', 'a', 'v']

/-- Extension extraction of the `/mix` handler (src/index.js lines
215-247), on the URL's characters: split the whole URL on `.`; if that
yields more than one part, take the last part (`urlParts.pop()`) and,
when it is non-empty, cut it at the first `?` (`lastPart.split('?')[0]`);
in every other case keep the default `wav`. -/
def extractExtensionChars (url : List Char) : List Char :=
  let urlParts := splitOnChar '.' url
  if 1 < urlParts.length then
    let lastPart := urlParts.getLastD []
    if 0 < lastPart.length then (splitOnChar '?' lastPart).headD []
    else wavChars
  else wavChars

/-- Extension extraction on strings. -/
def extractExtension (url : String) : String :=
  String.mk (extractExtensionChars url.toList)

/-- The scratch directory (`temp` under the source directory,
src/index.js line 18), kept abstract as a relative path. -/
def tempDir : String := "temp"

/-- The scratch filename for stem `i` of request `rid`
(src/index.js line 249): `RID_stem_I.EXTENSION`. -/
def stemFilename (rid : String) (i : Nat) (url : String) : String :=
  rid ++ "_stem_" ++ toString i ++ "." ++ extractExtension url

/-- The scratch filepath for stem `i` (src/index.js line 250). -/
def stemFilepath (rid : String) (i : Nat) (url : String) : String :=
  tempDir ++ "/" ++ stemFilename rid i url

/-- The output filepath (src/index.js lines 262-263). -/
def outputFilepath (rid : String) : String :=
  tempDir ++ "/" ++ rid ++ "_mixed.mp3"

/-- JavaScript `String.prototype.trim`: strip leading and trailing
whitespace (written out structurally so that it evaluates inside the
kernel). -/
def jsTrim (s : String) : String :=
  String.mk (((s.toList.dropWhile Char.isWhitespace).reverse.dropWhile
    Char.isWhitespace).reverse)

/-- Error message of the stems-presence check (src/index.js line 135). -/
def stemsRequiredMsg : String :=
  "stems array is required and must not be empty"

/-- Error message of the invalid-stem branch (src/index.js line 172). -/
def invalidStemMsg (i : Nat) : String :=
  "Invalid stem at index " ++ toString i ++
    ". Expected string URL or object with url property"

/-- Error message of the invalid-URL branch (src/index.js line 194). -/
def invalidUrlMsg (i : Nat) : String :=
  "Invalid URL at index " ++ toString i ++ ". Expected non-empty string"

/-- Error message of the catch-all 500 response (src/index.js line 300). -/
def failedMixMsg : String := "Failed to mix audio files"

/-- The JSON body of a 400 validation response: the `error` string and,
when the branch includes them, the `received` value and the `requestId`. -/
structure ErrorBody where
  error : String
  received : Option JSValue
  requestId : Option String

/-- Result of the stem validation loop (src/index.js lines 144-203). -/
inductive ValidationResult where
  | ok (validatedStems : List String) : ValidationResult
  | reject (body : ErrorBody) : ValidationResult

/-- The validation loop of the `/mix` handler (src/index.js lines
144-203): for each stem, accept a string as its own URL, accept an
object with a truthy `url` field, otherwise respond 400 with the
invalid-stem message; then require the URL to be a string with non-empty
trim, otherwise respond 400 with the invalid-URL message; accepted URLs
are trimmed and accumulated. -/
def validateLoop (rid : String) (stems : List JSValue) (i : Nat)
    (acc : List String) : ValidationResult :=
  match stems with
  | [] => .ok acc
  | stem :: rest =>
    let stemUrlOpt : Option JSValue :=
      if isString stem then some stem
      else if truthy stem && isObjTypeof stem && truthy (getField stem "url") then
        some (getField stem "url")
      else none
    match stemUrlOpt with
    | none => .reject ⟨invalidStemMsg i, some stem, some rid⟩
    | some stemUrl =>
      match stemUrl with
      | .vStr s =>
        if jsTrim s = "" then .reject ⟨invalidUrlMsg i, some stemUrl, some rid⟩
        else validateLoop rid rest (i + 1) (acc ++ [jsTrim s])
      | _ => .reject ⟨invalidUrlMsg i, some stemUrl, some rid⟩

/-- Oracle for the handler's environment: whether the HTTP GET of a URL
succeeds (`response.ok`), the status line text used in the download
error message, the ffmpeg exit code, whether the output file exists
after mixing, and whether response streaming succeeds. -/
structure Oracles where
  fetchOk : String → Bool
  statusLine : String → String
  mixExit : Nat
  outputExists : Bool
  streamOk : Bool

/-- Observable steps of one `/mix` request, in execution order:
a fetch attempt for a stem URL, a completed download to a scratch path,
the ffmpeg invocation, a call of the `cleanup` routine on a file list,
and the dispatch of the HTTP response status. -/
inductive Event where
  | fetchAttempt (url : String) : Event
  | download (i : Nat) (url : String) (path : String) : Event
  | mixInvoke (args : List String) : Event
  | cleanupCall (files : List String) : Event
  | respond (status : Nat) : Event
deriving DecidableEq, Repr

/-- The response body of the `/mix` handler: a 400 validation JSON body,
the 500 failure JSON body `error`/`details`/`requestId`
(src/index.js lines 299-303), or the streamed MP3 attachment. -/
inductive ResponseBody where
  | jsonError (b : ErrorBody) : ResponseBody
  | jsonFail (error : String) (details : String) (requestId : String) : ResponseBody
  | mp3Stream (filename : String) : ResponseBody

/-- Outcome of one `/mix` request: the event trace, the HTTP status and
the response body. -/
structure MixOutcome where
  trace : List Event
  status : Nat
  body : ResponseBody

/-- The sequential download loop (src/index.js lines 207-259): for each
validated stem in index order, attempt the fetch; on success write the
scratch file and append its path to `tempFiles`; the first failure
aborts the loop (the thrown error's message is returned).  The result is
the emitted events, the `tempFiles` accumulated so far, and `none` on
success or `some errMsg` on failure. -/
def downloadLoop (rid : String) (o : Oracles) :
    List String → Nat → List String → (List Event × List String × Option String)
  | [], _, tempFiles => ([], tempFiles, none)
  | url :: rest, i, tempFiles =>
    let fp := stemFilepath rid i url
    if o.fetchOk url then
      let r := downloadLoop rid o rest (i + 1) (tempFiles ++ [fp])
      (Event.fetchAttempt url :: Event.download i url fp :: r.1, r.2)
    else
      ([Event.fetchAttempt url], tempFiles,
       some ("Failed to download: " ++ o.statusLine url))

/-- The volumes list handed to `mixAudioFiles`: the decoded `volumes`
field when it is an array, the default `[]` otherwise (src/index.js
line 58; a missing field is `undefined` and triggers the default
parameter — only the array and absent shapes are exercised by the
specification). -/
def volumesList (volumes : JSValue) : List JSValue :=
  match volumes with
  | .vArr xs => xs
  | _ => []

/-- The elements of a JavaScript array value. -/
def arrayElems : JSValue → List JSValue
  | .vArr xs => xs
  | _ => []

/-- The post-validation stage of the `/mix` handler (src/index.js lines
207-304): the sequential download loop, the ffmpeg invocation, the
output-existence check, the streamed 200 response with deferred cleanup,
and the catch block that runs `cleanup` on the scratch files gathered so
far before responding 500. -/
def afterValidation (rid : String) (o : Oracles) (volumes : JSValue)
    (validatedStems : List String) : MixOutcome :=
  let dl := downloadLoop rid o validatedStems 0 []
  match dl.2.2 with
  | some errMsg =>
    { trace := dl.1 ++ [.cleanupCall dl.2.1, .respond 500], status := 500,
      body := .jsonFail failedMixMsg errMsg rid }
  | none =>
    let inputFiles := dl.2.1
    let outputPath := outputFilepath rid
    let tempFiles := dl.2.1 ++ [outputPath]
    let args := mixAudioFilesArgs inputFiles outputPath (volumesList volumes)
    if o.mixExit ≠ 0 then
      { trace := dl.1 ++ [.mixInvoke args, .cleanupCall tempFiles, .respond 500],
        status := 500,
        body := .jsonFail failedMixMsg
          ("ffmpeg process exited with code " ++ toString o.mixExit) rid }
    else if !o.outputExists then
      { trace := dl.1 ++ [.mixInvoke args, .cleanupCall tempFiles, .respond 500],
        status := 500,
        body := .jsonFail failedMixMsg "Mixed audio file was not created" rid }
    else
      { trace := dl.1 ++ [.mixInvoke args, .respond 200, .cleanupCall tempFiles],
        status := 200,
        body := .mp3Stream ("mixed_" ++ rid ++ ".mp3") }

/-- The `/mix` request handler (src/index.js lines 124-305) as a pure
function of the request id, the decoded JSON body and the environment
oracle.  It mirrors the source's control flow: the stems-presence
check, the validation loop, then the post-validation stage
`afterValidation`. -/
def processMix (rid : String) (reqBody : JSValue) (o : Oracles) : MixOutcome :=
  let stems := getField reqBody "stems"
  let volumes := getField reqBody "volumes"
  if !truthy stems || !isArray stems ||
      (match stems with | .vArr xs => xs.isEmpty | _ => true) then
    { trace := [.respond 400], status := 400,
      body := .jsonError ⟨stemsRequiredMsg, none, none⟩ }
  else
    match validateLoop rid (arrayElems stems) 0 [] with
    | .reject b => { trace := [.respond 400], status := 400, body := .jsonError b }
    | .ok validatedStems => afterValidation rid o volumes validatedStems

/-- State threaded through the `cleanup` routine: the set of files
present on disk (as a list), the number of `unlinkSync` attempts made,
and the caught (logged, never re-thrown) per-file errors. -/
structure CleanupState where
  fs : List String
  attempts : Nat
  caught : List String

/-- The check `fs.existsSync` on the modelled file system. -/
def existsSync (fs : List String) (file : String) : Bool := fs.contains file

/-- The call `fs.unlinkSync`: fails (throws) for files the deletion-failure
oracle marks, otherwise removes the file. -/
def unlinkSync (failOracle : String → Bool) (fs : List String) (file : String) :
    Except String (List String) :=
  if failOracle file then .error file
  else .ok (fs.filter (fun g => !(g = file)))

/-- One iteration of `cleanup`'s `forEach` (src/index.js lines 111-120):
skip the file when it does not exist; otherwise attempt `unlinkSync`,
catching (and only logging) any error. -/
def cleanupFile (failOracle : String → Bool) (st : CleanupState)
    (file : String) : CleanupState :=
  if existsSync st.fs file then
    match unlinkSync failOracle st.fs file with
    | .ok fs2 => { fs := fs2, attempts := st.attempts + 1, caught := st.caught }
    | .error e =>
      { fs := st.fs, attempts := st.attempts + 1, caught := st.caught ++ [e] }
  else st

/-- The `cleanup` routine (src/index.js lines 110-121): best-effort
deletion of every file in the list, never throwing. -/
def cleanup (failOracle : String → Bool) (fs : List String)
    (files : List String) : CleanupState :=
  files.foldl (cleanupFile failOracle) { fs := fs, attempts := 0, caught := [] }

/-! Specification-side definitions, written from the specification's
words rather than from the source, for the refinement comparisons. -/

/-- Following the specification's words for the per-stem gain: the gain
at index `i` is the supplied `volumes[i]` when such an entry exists and
is truthy, and the unity gain `1.0` when the entry is missing,
out of range, or falsy. -/
def specGain (volumes : List JSValue) (i : Nat) : JSValue :=
  match volumes.get? i with
  | some v => if truthy v then v else .vNum 1
  | none => .vNum 1

/-- Following the specification's words: the filter graph applies, per
source index, the gain `specGain` at that index, then mixes all sources
with duration equal to the longest input. -/
def specFilterComplex (n : Nat) (volumes : List JSValue) : String :=
  ((List.range n).foldl (fun acc index =>
      acc ++ ("[" ++ toString index ++ ":a]volume=" ++ jsRender (specGain volumes index)
        ++ "[a" ++ toString index ++ "];")) "")
    ++ mixInputsStr n ++ "amix=inputs=" ++ toString n ++ ":duration=longest[out]"

/-- Following the claim's words, a stem descriptor is valid when it is
a string that is non-empty after trimming, or an object whose `url`
field is a string that is non-empty after trimming. -/
def claimValidStem (s : JSValue) : Bool :=
  match s with
  | .vStr t => !(jsTrim t = "")
  | .vObj fields =>
    match (fields.lookup "url").getD .vUndefined with
    | .vStr t => !(jsTrim t = "")
    | _ => false
  | _ => false

/-! Helper lemmas. -/

/-- Folding string appends over a list is insensitive to replacing the
appended function by a pointwise-equal one. -/
theorem foldl_append_congr (l : List Nat) (f g : Nat → String) (s : String)
    (h : ∀ i ∈ l, f i = g i) :
    l.foldl (fun acc i => acc ++ f i) s = l.foldl (fun acc i => acc ++ g i) s := by
  induction l generalizing s with
  | nil => rfl
  | cons a l ih =>
    simp only [List.foldl_cons]
    rw [h a (by simp)]
    exact ih _ (fun i hi => h i (by simp [hi]))

/-- The volume used by `mixAudioFiles` at any index agrees with the
specification-side gain. -/
theorem volumeUsed_eq_specGain (volumes : List JSValue) (i : Nat) :
    volumeUsed volumes i = specGain volumes i := by
  unfold volumeUsed specGain
  rw [List.getD_eq_getD_get?]
  cases h : volumes.get? i with
  | none => simp [Option.getD, truthy]
  | some v => simp [Option.getD]

/-! ### C1 -/

/-- C1, counterexample: for a request with one stem and volumes `[0]`
(so `M = N = 1`), the claim demands gain `volumes[0] = 0` at index 0,
but the constructed filter fragment applies gain `1` (the source's
`volumes[index] || 1.0` replaces the falsy entry `0`). -/
theorem c1_counterexample :
    volumeFilter [JSValue.vNum 0] 0 = "[0:a]volume=1[a0];" ∧
    ¬ volumeFilter [JSValue.vNum 0] 0 = "[0:a]volume=0[a0];" := by
  constructor
  · rfl
  · decide

/-- C1 (amended): for every request the ffmpeg filter graph applies, at
each stem index `i`, the gain `volumes[i]` when that entry exists and is
truthy, and gain `1.0` when the entry is falsy or `M ≤ i < N`; the
filter string built by `mixAudioFiles` coincides with the
specification-side one built from these gains. -/
theorem c1_volumes_applied (n : Nat) (volumes : List JSValue) :
    filterComplexStr n volumes = specFilterComplex n volumes ∧
    ∀ i, volumeUsed volumes i = specGain volumes i := by
  constructor
  · unfold filterComplexStr specFilterComplex
    have h := foldl_append_congr (List.range n) (volumeFilter volumes)
      (fun index => "[" ++ toString index ++ ":a]volume=" ++ jsRender (specGain volumes index)
        ++ "[a" ++ toString index ++ "];") ""
      (fun i _ => by rw [volumeFilter, volumeUsed_eq_specGain])
    rw [h]
  · exact volumeUsed_eq_specGain volumes

/-! ### C9 -/

/-- C9: for every index `i`, a falsy `volumes[i]` entry — in particular
an explicit `0`, `null` or `NaN` — is replaced by the gain `1.0`, and a
truthy entry of any type is used as the gain and interpolated verbatim
(via JavaScript string coercion) into the filter fragment. -/
theorem c9_falsy_replaced_truthy_verbatim (volumes : List JSValue) (i : Nat)
    (v : JSValue) (hv : volumes.getD i .vUndefined = v) :
    ((truthy v = false → volumeUsed volumes i = .vNum 1) ∧
     (truthy v = true → volumeUsed volumes i = v ∧
       volumeFilter volumes i =
         "[" ++ toString i ++ ":a]volume=" ++ jsRender v ++ "[a" ++ toString i ++ "];")) ∧
    truthy (.vNum 0) = false ∧ truthy .vNull = false ∧ truthy .vNaN = false := by
  refine ⟨⟨fun hf => ?_, fun ht => ?_⟩, by decide, rfl, rfl⟩
  · simp only [volumeUsed, hv, hf]
    simp
  · have h1 : volumeUsed volumes i = v := by
      simp only [volumeUsed, hv, ht]
      simp
    exact ⟨h1, by rw [volumeFilter, h1]⟩

/-- C9, witness: the falsy entry `0` is replaced by gain `1`, and the
truthy string entry `"loud"` is interpolated verbatim. -/
theorem c9_witness :
    volumeUsed [JSValue.vNum 0] 0 = JSValue.vNum 1 ∧
    volumeFilter [JSValue.vStr "loud"] 0 = "[0:a]volume=loud[a0];" := by
  constructor
  · exact (c9_falsy_replaced_truthy_verbatim [JSValue.vNum 0] 0 (JSValue.vNum 0) rfl).1.1
      (by decide)
  · exact ((c9_falsy_replaced_truthy_verbatim [JSValue.vStr "loud"] 0
      (JSValue.vStr "loud") rfl).1.2 (by decide)).2

/-! ### C10 -/

/-- C10: entries of `volumes` beyond the number of stems have no effect
on the constructed ffmpeg invocation — the argument list built from
`volumes` equals the one built from its first `N` entries. -/
theorem c10_excess_volumes_ignored (inputFiles : List String)
    (outputFile : String) (volumes : List JSValue) :
    mixAudioFilesArgs inputFiles outputFile volumes =
      mixAudioFilesArgs inputFiles outputFile (volumes.take inputFiles.length) := by
  unfold mixAudioFilesArgs
  have hf : filterComplexStr inputFiles.length volumes =
      filterComplexStr inputFiles.length (volumes.take inputFiles.length) := by
    unfold filterComplexStr
    have h := foldl_append_congr (List.range inputFiles.length)
      (volumeFilter volumes) (volumeFilter (volumes.take inputFiles.length)) ""
      (fun i hi => by
        unfold volumeFilter volumeUsed
        rw [List.getD_eq_getD_get?, List.getD_eq_getD_get?]
        rw [show (volumes.take inputFiles.length).get? i = volumes.get? i from by
          simp [List.getElem?_take_of_lt, List.mem_range.mp hi]])
    rw [h]
  rw [hf]

/-! ### C7 -/

/-- The `-i FILE` block has an `-i` flag at every even position and the
corresponding input file right after it. -/
theorem inputArgs_get (xs : List String) (i : Nat) (h : i < xs.length) :
    (xs.flatMap (fun file => ["-i", file])).get? (2 * i) = some "-i" ∧
    (xs.flatMap (fun file => ["-i", file])).get? (2 * i + 1) = xs.get? i := by
  induction xs generalizing i with
  | nil => simp at h
  | cons x xs ih =>
    cases i with
    | zero => simp
    | succ i =>
      have hi : i < xs.length := by simpa using h
      have ih2 := ih i hi
      have e1 : 2 * (i + 1) = 2 * i + 1 + 1 := by ring
      rw [e1]
      exact ⟨ih2.1, ih2.2⟩

/-- The `-i FILE` block has length twice the number of inputs. -/
theorem inputArgs_length (xs : List String) :
    (xs.flatMap (fun file => ["-i", file])).length = 2 * xs.length := by
  induction xs with
  | nil => rfl
  | cons x xs ih =>
    simp [ih, Nat.mul_succ]

/-- Appending string fragments by `foldl` concatenates their character
data after the seed's. -/
theorem foldl_append_data (l : List Nat) (f : Nat → String) (s : String) :
    (l.foldl (fun acc i => acc ++ f i) s).data =
      s.data ++ (l.map (fun i => (f i).data)).flatten := by
  induction l generalizing s with
  | nil => simp
  | cons a l ih =>
    simp only [List.foldl_cons, List.map_cons, List.flatten_cons]
    rw [ih]
    simp [String.data_append]

/-- A member of a list of character lists is an infix of its
flattening. -/
theorem infix_flatten_of_mem {x : List Char} {L : List (List Char)}
    (h : x ∈ L) : x <:+: L.flatten := by
  induction L with
  | nil => simp at h
  | cons a L ih =>
    rw [List.mem_cons] at h
    rcases h with h | h
    · rw [h]
      exact (List.prefix_append a L.flatten).isInfix
    · exact (ih h).trans (List.suffix_append a L.flatten).isInfix

/-- C7: for every non-empty input list, the ffmpeg argument list built
by `mixAudioFiles` declares the inputs as `-i` sources in request order,
follows them with a single `-filter_complex` argument whose graph
contains the per-source volume filter of every index and ends with an
amix over all inputs with `duration=longest`, selects the MP3 codec at
bitrate `192k`, and places the `-y` overwrite flag immediately before
the output path at the end. -/
theorem c7_ffmpeg_invocation (inputFiles : List String) (outputFile : String)
    (volumes : List JSValue) (hne : inputFiles ≠ []) :
    (∀ i, i < inputFiles.length →
      (mixAudioFilesArgs inputFiles outputFile volumes).get? (2 * i) = some "-i" ∧
      (mixAudioFilesArgs inputFiles outputFile volumes).get? (2 * i + 1) =
        inputFiles.get? i) ∧
    (mixAudioFilesArgs inputFiles outputFile volumes).get? (2 * inputFiles.length) =
      some "-filter_complex" ∧
    (mixAudioFilesArgs inputFiles outputFile volumes).get? (2 * inputFiles.length + 1) =
      some (filterComplexStr inputFiles.length volumes) ∧
    (∀ i, i < inputFiles.length →
      (volumeFilter volumes i).data <:+:
        (filterComplexStr inputFiles.length volumes).data) ∧
    ("amix=inputs=" ++ toString inputFiles.length ++ ":duration=longest[out]").data <:+
      (filterComplexStr inputFiles.length volumes).data ∧
    ["-c:a", "mp3"] <:+: mixAudioFilesArgs inputFiles outputFile volumes ∧
    ["-b:a", "192k"] <:+: mixAudioFilesArgs inputFiles outputFile volumes ∧
    ["-y", outputFile] <:+ mixAudioFilesArgs inputFiles outputFile volumes := by
  have hlen := inputArgs_length inputFiles
  refine ⟨?_, ?_, ?_, ?_, ?_, ?_, ?_, ?_⟩
  · intro i hi
    have h1 := (inputArgs_get inputFiles i hi).1
    have h2 := (inputArgs_get inputFiles i hi).2
    have hlt1 : 2 * i < (inputFiles.flatMap (fun file => ["-i", file])).length := by
      omega
    have hlt2 : 2 * i + 1 < (inputFiles.flatMap (fun file => ["-i", file])).length := by
      omega
    unfold mixAudioFilesArgs
    rw [List.get?_append hlt1, List.get?_append hlt2]
    exact ⟨h1, h2⟩
  · unfold mixAudioFilesArgs
    rw [List.get?_append_right (by omega)]
    simp [hlen]
  · unfold mixAudioFilesArgs
    rw [List.get?_append_right (by omega)]
    simp [hlen]
  · intro i hi
    unfold filterComplexStr
    simp only [String.data_append]
    have h1 : (volumeFilter volumes i).data <:+:
        ((List.range inputFiles.length).foldl
          (fun acc index => acc ++ volumeFilter volumes index) "").data := by
      rw [foldl_append_data]
      have hm : (volumeFilter volumes i).data ∈
          (List.range inputFiles.length).map (fun j => (volumeFilter volumes j).data) :=
        List.mem_map.mpr ⟨i, List.mem_range.mpr hi, rfl⟩
      exact (infix_flatten_of_mem hm).trans (List.suffix_append _ _).isInfix
    exact h1.trans ⟨[], (mixInputsStr inputFiles.length).data ++ "amix=inputs=".data
      ++ (toString inputFiles.length).data ++ ":duration=longest[out]".data,
      by simp [List.append_assoc]⟩
  · unfold filterComplexStr
    simp only [String.data_append]
    refine ⟨((List.range inputFiles.length).foldl
        (fun acc index => acc ++ volumeFilter volumes index) "").data
      ++ (mixInputsStr inputFiles.length).data, ?_⟩
    simp [String.data_append, List.append_assoc]
  · unfold mixAudioFilesArgs
    refine ⟨inputFiles.flatMap (fun file => ["-i", file]) ++
      ["-filter_complex", filterComplexStr inputFiles.length volumes, "-map", "[out]"],
      ["-b:a", "192k", "-y", outputFile], ?_⟩
    simp
  · unfold mixAudioFilesArgs
    refine ⟨inputFiles.flatMap (fun file => ["-i", file]) ++
      ["-filter_complex", filterComplexStr inputFiles.length volumes, "-map", "[out]",
       "-c:a", "mp3"], ["-y", outputFile], ?_⟩
    simp
  · unfold mixAudioFilesArgs
    refine ⟨inputFiles.flatMap (fun file => ["-i", file]) ++
      ["-filter_complex", filterComplexStr inputFiles.length volumes, "-map", "[out]",
       "-c:a", "mp3", "-b:a", "192k"], ?_⟩
    simp

/-- C7, witness: for the concrete one-input invocation, the first
argument pair is `-i temp/a.wav` and the list ends with
`-y temp/out.mp3`. -/
theorem c7_witness :
    (mixAudioFilesArgs ["temp/a.wav"] "temp/out.mp3" []).get? 0 = some "-i" ∧
    ["-y", "temp/out.mp3"] <:+ mixAudioFilesArgs ["temp/a.wav"] "temp/out.mp3" [] := by
  have h := c7_ffmpeg_invocation ["temp/a.wav"] "temp/out.mp3" [] (by decide)
  exact ⟨(h.1 0 (by decide)).1, h.2.2.2.2.2.2.2⟩

/-! ### C2 -/

/-- The function `splitOnChar` never returns the empty list. -/
theorem splitOnChar_ne_nil (sep : Char) (l : List Char) :
    splitOnChar sep l ≠ [] := by
  cases l with
  | nil => simp [splitOnChar]
  | cons c cs =>
    unfold splitOnChar
    by_cases h : c = sep
    · simp [h]
    · simp only [h, if_false]
      cases splitOnChar sep cs <;> simp

/-- Splitting a list that does not contain the separator yields the
singleton group. -/
theorem splitOnChar_of_not_mem (sep : Char) (l : List Char)
    (h : ∀ x ∈ l, ¬ x = sep) : splitOnChar sep l = [l] := by
  induction l with
  | nil => rfl
  | cons c cs ih =>
    have hc : ¬ c = sep := h c (by simp)
    have hrest : splitOnChar sep cs = [cs] := ih (fun x hx => h x (by simp [hx]))
    unfold splitOnChar
    simp [hc, hrest]

/-- The first group of a split is the run of characters before the first
separator. -/
theorem splitOnChar_headD (sep : Char) (l : List Char) :
    (splitOnChar sep l).headD [] = l.takeWhile (fun x => !(x = sep)) := by
  induction l with
  | nil => rfl
  | cons c cs ih =>
    unfold splitOnChar
    by_cases hc : c = sep
    · simp [hc, List.takeWhile_cons]
    · simp only [hc, if_false]
      rcases he : splitOnChar sep cs with _ | ⟨g, gs⟩
      · exact absurd he (splitOnChar_ne_nil sep cs)
      · rw [he] at ih
        simp only [List.headD_cons] at ih
        simp [List.takeWhile_cons, hc, ih]

/-- Splitting `a ++ sep :: b`, with `b` free of the separator, yields at
least two groups, the last of which is `b`. -/
theorem splitOnChar_append_getLast (sep : Char) (a b : List Char)
    (hb : ∀ x ∈ b, ¬ x = sep) :
    1 < (splitOnChar sep (a ++ sep :: b)).length ∧
    (splitOnChar sep (a ++ sep :: b)).getLastD [] = b := by
  induction a with
  | nil =>
    simp only [List.nil_append]
    unfold splitOnChar
    simp [splitOnChar_of_not_mem sep b hb]
  | cons c a ih =>
    simp only [List.cons_append]
    unfold splitOnChar
    by_cases hc : c = sep
    · simp only [hc, if_true]
      have h1 := ih.1
      refine ⟨by simp only [List.length_cons]; omega, ?_⟩
      rw [List.getLastD_cons]
      have h2 := ih.2
      rcases he : splitOnChar sep (a ++ sep :: b) with _ | ⟨g, gs⟩
      · exact absurd he (splitOnChar_ne_nil sep _)
      · rw [he] at h2
        rw [List.getLastD_cons] at h2 ⊢
        exact h2
    · simp only [hc, if_false]
      rcases he : splitOnChar sep (a ++ sep :: b) with _ | ⟨g, gs⟩
      · exact absurd he (splitOnChar_ne_nil sep _)
      · have h1 := ih.1
        have h2 := ih.2
        rw [he] at h1 h2
        simp only [List.length_cons] at h1
        have hgs : gs ≠ [] := by
          intro hgs
          rw [hgs] at h1
          simp at h1
        refine ⟨by simp only [List.length_cons]; omega, ?_⟩
        rw [List.getLastD_cons] at h2 ⊢
        rw [List.getLastD_eq_getLast?] at h2 ⊢
        obtain ⟨y, hy⟩ := Option.isSome_iff_exists.mp (List.getLast?_isSome.mpr hgs)
        rw [hy] at h2 ⊢
        exact h2

/-- C2, counterexample: the URL `http://example.com/track` has no `.` in
its final path segment (`track`), yet the extracted extension is
`com/track`, not the claimed default `wav` — the source splits the whole
URL on `.`, not the final path segment. -/
theorem c2_counterexample :
    extractExtension "http://example.com/track" = "com/track" ∧
    stemFilename "r" 0 "http://example.com/track" = "r_stem_0.com/track" ∧
    ¬ extractExtension "http://example.com/track" = "wav" := by
  refine ⟨rfl, rfl, by decide⟩

/-- C2 (amended): the stored extension is taken from splitting the whole
URL on `.`: a URL containing no `.` at all defaults to `wav`; a URL
ending in `.` (nothing after its last dot) defaults to `wav`; otherwise
the extension is the segment after the last `.`, cut at the first `?`. -/
theorem c2_extension_extraction :
    (∀ u : List Char, (∀ x ∈ u, ¬ x = '.') → extractExtensionChars u = wavChars) ∧
    (∀ a : List Char, extractExtensionChars (a ++ ['.']) = wavChars) ∧
    (∀ a b : List Char, (∀ x ∈ b, ¬ x = '.') → b ≠ [] →
      extractExtensionChars (a ++ '.' :: b) = b.takeWhile (fun x => !(x = '?'))) := by
  refine ⟨?_, ?_, ?_⟩
  · intro u hu
    simp only [extractExtensionChars]
    rw [splitOnChar_of_not_mem _ u hu]
    simp
  · intro a
    have h := splitOnChar_append_getLast '.' a [] (by simp)
    simp only [extractExtensionChars]
    rw [if_pos h.1, h.2]
    simp
  · intro a b hb hne
    have h := splitOnChar_append_getLast '.' a b hb
    simp only [extractExtensionChars]
    rw [if_pos h.1, h.2, if_pos (List.length_pos.mpr hne)]
    exact splitOnChar_headD _ b

/-- C2 (amended), witness: the URL `https://x/track.flac?sig=abc`
yields the extension `flac`. -/
theorem c2_witness :
    extractExtensionChars (String.toList "https://x/track.flac?sig=abc") =
      String.toList "flac" := by
  have h := c2_extension_extraction.2.2 (String.toList "https://x/track")
    (String.toList "flac?sig=abc") (by decide) (by decide)
  exact Eq.trans (congrArg extractExtensionChars (by rfl)) (h.trans (by rfl))

/-! ### C8 -/

/-- One `cleanup` iteration filters exactly the processed file out of
the file system, unless its deletion fails. -/
theorem cleanupFile_fs (failOracle : String → Bool) (st : CleanupState)
    (file : String) :
    (cleanupFile failOracle st file).fs =
      st.fs.filter (fun x => !(decide (x = file) && !failOracle x)) := by
  by_cases hm : file ∈ st.fs
  · cases hf : failOracle file with
    | true =>
      have hstep : (cleanupFile failOracle st file).fs = st.fs := by
        unfold cleanupFile existsSync unlinkSync
        simp [hm, hf]
      rw [hstep]
      refine (List.filter_eq_self.mpr ?_).symm
      intro x hx
      by_cases hef : x = file
      · simp [hef, hf]
      · simp [hef]
    | false =>
      have hstep : (cleanupFile failOracle st file).fs =
          st.fs.filter (fun g => !(g = file)) := by
        unfold cleanupFile existsSync unlinkSync
        simp [hm, hf]
      rw [hstep]
      refine List.filter_congr ?_
      intro x hx
      by_cases hef : x = file
      · simp [hef, hf]
      · simp [hef]
  · have hstep : cleanupFile failOracle st file = st := by
      unfold cleanupFile existsSync
      simp [hm]
    rw [hstep]
    refine (List.filter_eq_self.mpr ?_).symm
    intro x hx
    by_cases hef : x = file
    · subst hef
      exact absurd hx hm
    · simp [hef]

/-- The `cleanup` fold removes from the file system exactly the listed
files whose deletion does not fail. -/
theorem cleanup_foldl_fs (failOracle : String → Bool) (files : List String) :
    ∀ st : CleanupState,
      (files.foldl (cleanupFile failOracle) st).fs =
        st.fs.filter (fun x => !(files.contains x && !failOracle x)) := by
  induction files with
  | nil => intro st; simp
  | cons f files ih =>
    intro st
    simp only [List.foldl_cons]
    rw [ih, cleanupFile_fs, List.filter_filter]
    refine List.filter_congr ?_
    intro x hx
    by_cases hef : x = f <;> cases hfa : failOracle x <;>
      simp [hef, hfa, List.contains_cons]

/-- Files absent from the file system are skipped: the fold leaves the
state untouched. -/
theorem cleanup_foldl_skip (failOracle : String → Bool) (files : List String) :
    ∀ st : CleanupState, (∀ f ∈ files, ¬ f ∈ st.fs) →
      files.foldl (cleanupFile failOracle) st = st := by
  induction files with
  | nil => intro st _; rfl
  | cons f files ih =>
    intro st h
    simp only [List.foldl_cons]
    have hstep : cleanupFile failOracle st f = st := by
      unfold cleanupFile existsSync
      simp [h f (by simp)]
    rw [hstep]
    exact ih st (fun g hg => h g (by simp [hg]))

/-- Every error gathered by the `cleanup` fold comes from a file whose
deletion fails. -/
theorem cleanup_foldl_caught (failOracle : String → Bool) (files : List String) :
    ∀ st : CleanupState, (∀ e ∈ st.caught, failOracle e = true) →
      ∀ e ∈ (files.foldl (cleanupFile failOracle) st).caught, failOracle e = true := by
  induction files with
  | nil => intro st h; exact h
  | cons f files ih =>
    intro st h
    simp only [List.foldl_cons]
    refine ih (cleanupFile failOracle st f) ?_
    intro e he
    unfold cleanupFile existsSync unlinkSync at he
    by_cases hm : f ∈ st.fs
    · cases hf : failOracle f with
      | true =>
        simp [hm, hf] at he
        rcases he with he | he
        · exact h e he
        · rw [he]; exact hf
      | false =>
        simp [hm, hf] at he
        exact h e he
    · simp [hm] at he
      exact h e he

/-- C8: `cleanup` is idempotent and total — a second pass over the same
file list leaves the file system unchanged and, when no per-file
deletion fails, makes zero deletion attempts (already-deleted files are
skipped); a per-file deletion failure never prevents the deletion of the
other listed files; and every caught error belongs to a file whose
deletion fails (errors are recorded, never thrown). -/
theorem c8_cleanup_idempotent (failOracle : String → Bool)
    (fs files : List String) :
    (cleanup failOracle (cleanup failOracle fs files).fs files).fs =
      (cleanup failOracle fs files).fs ∧
    ((∀ f ∈ files, failOracle f = false) →
      (cleanup failOracle (cleanup failOracle fs files).fs files).attempts = 0) ∧
    (∀ f ∈ files, f ∈ fs → failOracle f = false →
      ¬ f ∈ (cleanup failOracle fs files).fs) ∧
    (∀ e ∈ (cleanup failOracle fs files).caught, failOracle e = true) := by
  have hfs1 : (cleanup failOracle fs files).fs =
      fs.filter (fun x => !(files.contains x && !failOracle x)) :=
    cleanup_foldl_fs failOracle files _
  have hfs2 : (cleanup failOracle (cleanup failOracle fs files).fs files).fs =
      ((cleanup failOracle fs files).fs).filter
        (fun x => !(files.contains x && !failOracle x)) :=
    cleanup_foldl_fs failOracle files _
  refine ⟨?_, ?_, ?_, ?_⟩
  · rw [hfs2, hfs1, List.filter_filter]
    refine List.filter_congr ?_
    intro x _
    cases hc : files.contains x <;> cases hfa : failOracle x <;> simp
  · intro hnf
    have habs : ∀ f ∈ files, ¬ f ∈ (cleanup failOracle fs files).fs := by
      intro f hf
      rw [hfs1]
      intro hmem
      have h2 := (List.mem_filter.mp hmem).2
      rw [hnf f hf] at h2
      simp [hf] at h2
    have hskip : files.foldl (cleanupFile failOracle)
        { fs := (cleanup failOracle fs files).fs, attempts := 0, caught := [] } =
        { fs := (cleanup failOracle fs files).fs, attempts := 0, caught := [] } :=
      cleanup_foldl_skip failOracle files _ habs
    show (files.foldl (cleanupFile failOracle)
      { fs := (cleanup failOracle fs files).fs, attempts := 0, caught := [] }).attempts = 0
    rw [hskip]
  · intro f hf hmem hnf
    rw [hfs1]
    intro habs
    have h2 := (List.mem_filter.mp habs).2
    rw [hnf] at h2
    simp [hf] at h2
  · exact cleanup_foldl_caught failOracle files _ (by simp [cleanup])

/-- C8, witness: with the file `temp/locked` undeletable, one pass of
`cleanup` removes `temp/a` anyway, a second pass leaves the file system
unchanged, and with no failing files a second pass makes zero
attempts. -/
theorem c8_witness :
    ¬ "temp/a" ∈ (cleanup (fun f => decide (f = "temp/locked"))
        ["temp/a", "temp/locked", "temp/b"]
        ["temp/a", "temp/locked"]).fs ∧
    (cleanup (fun _ => false)
        (cleanup (fun _ => false) ["temp/a", "temp/b"] ["temp/a"]).fs
        ["temp/a"]).attempts = 0 := by
  constructor
  · exact (c8_cleanup_idempotent (fun f => decide (f = "temp/locked"))
      ["temp/a", "temp/locked", "temp/b"] ["temp/a", "temp/locked"]).2.2.1
      "temp/a" (by decide) (by decide) (by decide)
  · exact (c8_cleanup_idempotent (fun _ => false)
      ["temp/a", "temp/b"] ["temp/a"]).2.1 (fun f _ => rfl)

/-! ### Handler-level lemmas -/

/-- The trimmed URL extracted from a claim-valid stem descriptor. -/
def trimmedUrlOf (stem : JSValue) : String :=
  match stem with
  | .vStr t => jsTrim t
  | .vObj fields =>
    match (fields.lookup "url").getD .vUndefined with
    | .vStr t => jsTrim t
    | _ => ""
  | _ => ""

/-- A string with a non-empty trim is non-empty. -/
theorem ne_empty_of_trim_ne_empty {t : String} (h : ¬ jsTrim t = "") : ¬ t = "" := by
  intro h0
  rw [h0] at h
  exact h (by decide)

/-- The validation loop accepts a claim-valid stem and continues with
its trimmed URL. -/
theorem validateLoop_cons_valid (rid : String) (stem : JSValue)
    (rest : List JSValue) (i : Nat) (acc : List String)
    (h : claimValidStem stem = true) :
    validateLoop rid (stem :: rest) i acc =
      validateLoop rid rest (i + 1) (acc ++ [trimmedUrlOf stem]) := by
  cases stem with
  | vStr t =>
    have ht : ¬ jsTrim t = "" := by simpa [claimValidStem] using h
    simp [validateLoop, isString, trimmedUrlOf, ht]
  | vObj fields =>
    rcases hu : (fields.lookup "url").getD .vUndefined with _ | _ | b | q | _ | t | es | fs
    case vStr =>
      have ht : ¬ jsTrim t = "" := by simpa [claimValidStem, hu] using h
      have htne : ¬ t = "" := ne_empty_of_trim_ne_empty ht
      simp [validateLoop, isString, isObjTypeof, truthy, getField, hu, htne, ht,
        trimmedUrlOf]
    all_goals simp [claimValidStem, hu] at h
  | vUndefined => simp [claimValidStem] at h
  | vNull => simp [claimValidStem] at h
  | vBool b => simp [claimValidStem] at h
  | vNum q => simp [claimValidStem] at h
  | vNaN => simp [claimValidStem] at h
  | vArr elems => simp [claimValidStem] at h

/-- The validation loop rejects a claim-invalid stem at its own index,
with the request id and a received value in the body. -/
theorem validateLoop_cons_invalid (rid : String) (stem : JSValue)
    (rest : List JSValue) (i : Nat) (acc : List String)
    (h : claimValidStem stem = false) :
    ∃ b, validateLoop rid (stem :: rest) i acc = .reject b ∧
      (b.error = invalidStemMsg i ∨ b.error = invalidUrlMsg i) ∧
      b.requestId = some rid ∧ ∃ v, b.received = some v := by
  cases stem with
  | vUndefined =>
    exact ⟨⟨invalidStemMsg i, some .vUndefined, some rid⟩,
      by simp [validateLoop, isString, truthy], Or.inl rfl, rfl, _, rfl⟩
  | vNull =>
    exact ⟨⟨invalidStemMsg i, some .vNull, some rid⟩,
      by simp [validateLoop, isString, truthy, isObjTypeof, getField],
      Or.inl rfl, rfl, _, rfl⟩
  | vBool b =>
    exact ⟨⟨invalidStemMsg i, some (.vBool b), some rid⟩,
      by simp [validateLoop, isString, isObjTypeof], Or.inl rfl, rfl, _, rfl⟩
  | vNum q =>
    exact ⟨⟨invalidStemMsg i, some (.vNum q), some rid⟩,
      by simp [validateLoop, isString, isObjTypeof], Or.inl rfl, rfl, _, rfl⟩
  | vNaN =>
    exact ⟨⟨invalidStemMsg i, some .vNaN, some rid⟩,
      by simp [validateLoop, isString, isObjTypeof], Or.inl rfl, rfl, _, rfl⟩
  | vArr elems =>
    exact ⟨⟨invalidStemMsg i, some (.vArr elems), some rid⟩,
      by simp [validateLoop, isString, isObjTypeof, truthy, getField],
      Or.inl rfl, rfl, _, rfl⟩
  | vStr t =>
    have ht : jsTrim t = "" := by simpa [claimValidStem] using h
    exact ⟨⟨invalidUrlMsg i, some (.vStr t), some rid⟩,
      by simp [validateLoop, isString, ht], Or.inr rfl, rfl, _, rfl⟩
  | vObj fields =>
    rcases hu : (fields.lookup "url").getD .vUndefined with _ | _ | b | q | _ | t | es | fs
    case vStr =>
      have ht : jsTrim t = "" := by simpa [claimValidStem, hu] using h
      by_cases hte : t = ""
      · exact ⟨⟨invalidStemMsg i, some (.vObj fields), some rid⟩,
          by simp [validateLoop, isString, isObjTypeof, truthy, getField, hu, hte],
          Or.inl rfl, rfl, _, rfl⟩
      · exact ⟨⟨invalidUrlMsg i, some (.vStr t), some rid⟩,
          by simp [validateLoop, isString, isObjTypeof, truthy, getField, hu, hte, ht],
          Or.inr rfl, rfl, _, rfl⟩
    case vUndefined =>
      exact ⟨⟨invalidStemMsg i, some (.vObj fields), some rid⟩,
        by simp [validateLoop, isString, isObjTypeof, truthy, getField, hu],
        Or.inl rfl, rfl, _, rfl⟩
    case vNull =>
      exact ⟨⟨invalidStemMsg i, some (.vObj fields), some rid⟩,
        by simp [validateLoop, isString, isObjTypeof, truthy, getField, hu],
        Or.inl rfl, rfl, _, rfl⟩
    case vNaN =>
      exact ⟨⟨invalidStemMsg i, some (.vObj fields), some rid⟩,
        by simp [validateLoop, isString, isObjTypeof, truthy, getField, hu],
        Or.inl rfl, rfl, _, rfl⟩
    case vBool =>
      cases b with
      | false =>
        exact ⟨⟨invalidStemMsg i, some (.vObj fields), some rid⟩,
          by simp [validateLoop, isString, isObjTypeof, truthy, getField, hu],
          Or.inl rfl, rfl, _, rfl⟩
      | true =>
        exact ⟨⟨invalidUrlMsg i, some (.vBool true), some rid⟩,
          by simp [validateLoop, isString, isObjTypeof, truthy, getField, hu],
          Or.inr rfl, rfl, _, rfl⟩
    case vNum =>
      by_cases hq : q = 0
      · exact ⟨⟨invalidStemMsg i, some (.vObj fields), some rid⟩,
          by simp [validateLoop, isString, isObjTypeof, truthy, getField, hu, hq],
          Or.inl rfl, rfl, _, rfl⟩
      · exact ⟨⟨invalidUrlMsg i, some (.vNum q), some rid⟩,
          by simp [validateLoop, isString, isObjTypeof, truthy, getField, hu, hq],
          Or.inr rfl, rfl, _, rfl⟩
    case vArr =>
      exact ⟨⟨invalidUrlMsg i, some (.vArr es), some rid⟩,
        by simp [validateLoop, isString, isObjTypeof, truthy, getField, hu],
        Or.inr rfl, rfl, _, rfl⟩
    case vObj =>
      exact ⟨⟨invalidUrlMsg i, some (.vObj fs), some rid⟩,
        by simp [validateLoop, isString, isObjTypeof, truthy, getField, hu],
        Or.inr rfl, rfl, _, rfl⟩

/-- Every rejection produced by the validation loop carries the request
id, a received value, and one of the two indexed error messages. -/
theorem validateLoop_reject_shape (stems : List JSValue) :
    ∀ (rid : String) (i : Nat) (acc : List String) (b : ErrorBody),
      validateLoop rid stems i acc = .reject b →
      b.requestId = some rid ∧ (∃ v, b.received = some v) ∧
        ∃ j, b.error = invalidStemMsg j ∨ b.error = invalidUrlMsg j := by
  induction stems with
  | nil =>
    intro rid i acc b h
    simp [validateLoop] at h
  | cons stem rest ih =>
    intro rid i acc b h
    cases hv : claimValidStem stem with
    | true =>
      rw [validateLoop_cons_valid rid stem rest i acc hv] at h
      exact ih rid (i + 1) (acc ++ [trimmedUrlOf stem]) b h
    | false =>
      obtain ⟨b2, hb2, herr, hreq, hrecv⟩ :=
        validateLoop_cons_invalid rid stem rest i acc hv
      rw [hb2] at h
      cases h
      exact ⟨hreq, hrecv, i, herr⟩

/-- If the first claim-invalid stem sits at index `j`, the validation
loop rejects with an error message naming index `i + j`. -/
theorem validateLoop_first_invalid (stems : List JSValue) :
    ∀ (j : Nat) (sj : JSValue) (rid : String) (i : Nat) (acc : List String),
      stems.get? j = some sj → claimValidStem sj = false →
      (∀ k sk, k < j → stems.get? k = some sk → claimValidStem sk = true) →
      ∃ b, validateLoop rid stems i acc = .reject b ∧
        (b.error = invalidStemMsg (i + j) ∨ b.error = invalidUrlMsg (i + j)) ∧
        b.requestId = some rid ∧ ∃ v, b.received = some v := by
  induction stems with
  | nil =>
    intro j sj rid i acc hj _ _
    simp at hj
  | cons stem rest ih =>
    intro j sj rid i acc hj hinv hvalid
    cases j with
    | zero =>
      simp only [List.get?_cons_zero, Option.some_inj] at hj
      subst hj
      simpa using validateLoop_cons_invalid rid stem rest i acc hinv
    | succ j =>
      have hstem : claimValidStem stem = true :=
        hvalid 0 stem (Nat.succ_pos j) rfl
      rw [validateLoop_cons_valid rid stem rest i acc hstem]
      have hj2 : rest.get? j = some sj := by simpa using hj
      have hvalid2 : ∀ k sk, k < j → rest.get? k = some sk →
          claimValidStem sk = true := by
        intro k sk hk hks
        exact hvalid (k + 1) sk (by omega) (by simpa using hks)
      obtain ⟨b, hb, herr, hreq, hrecv⟩ :=
        ih j sj rid (i + 1) (acc ++ [trimmedUrlOf stem]) hj2 hinv hvalid2
      have e : i + 1 + j = i + (j + 1) := by omega
      rw [e] at herr
      exact ⟨b, hb, herr, hreq, hrecv⟩

/-- A download loop run over stems of which one fails ends in failure,
with every downloaded path inside the final scratch list, which also
extends the accumulator. -/
theorem downloadLoop_fail (rid : String) (o : Oracles) (stems : List String) :
    ∀ (i : Nat) (acc : List String),
      (∃ j u, stems.get? j = some u ∧ o.fetchOk u = false) →
      ∃ evs tf errMsg, downloadLoop rid o stems i acc = (evs, tf, some errMsg) ∧
        (∀ k w p, Event.download k w p ∈ evs → p ∈ tf) ∧
        (∀ p ∈ acc, p ∈ tf) := by
  induction stems with
  | nil =>
    intro i acc h
    obtain ⟨j, u, hj, _⟩ := h
    simp at hj
  | cons url rest ih =>
    intro i acc h
    cases hf : o.fetchOk url with
    | false =>
      refine ⟨[Event.fetchAttempt url], acc,
        "Failed to download: " ++ o.statusLine url, ?_, ?_, ?_⟩
      · simp [downloadLoop, hf]
      · intro k w p hp
        simp at hp
      · intro p hp
        exact hp
    | true =>
      obtain ⟨j, u, hj, hu⟩ := h
      have hrest : ∃ j u, rest.get? j = some u ∧ o.fetchOk u = false := by
        cases j with
        | zero =>
          simp only [List.get?_cons_zero, Option.some_inj] at hj
          rw [hj] at hf
          rw [hf] at hu
          exact absurd hu (by simp)
        | succ j => exact ⟨j, u, by simpa using hj, hu⟩
      obtain ⟨evs, tf, errMsg, heq, hdl, hacc⟩ :=
        ih (i + 1) (acc ++ [stemFilepath rid i url]) hrest
      refine ⟨Event.fetchAttempt url :: Event.download i url (stemFilepath rid i url)
        :: evs, tf, errMsg, ?_, ?_, ?_⟩
      · simp only [downloadLoop, hf, if_true]
        rw [heq]
      · intro k w p hp
        simp only [List.mem_cons] at hp
        rcases hp with hp | hp | hp
        · exact absurd hp (by simp)
        · simp only [Event.download.injEq] at hp
          obtain ⟨hk, hw, hp3⟩ := hp
          subst hp3
          exact hacc (stemFilepath rid i url) (by simp)
        · exact hdl k w p hp
      · intro p hp
        exact hacc p (by simp [hp])

/-- The handler responds 400 with the raw stems error when the `stems`
field is falsy, not an array, or an empty array. -/
theorem processMix_badshape (rid : String) (reqBody : JSValue) (o : Oracles)
    (h : (!truthy (getField reqBody "stems") || !isArray (getField reqBody "stems") ||
      (match getField reqBody "stems" with
       | .vArr xs => xs.isEmpty | _ => true)) = true) :
    processMix rid reqBody o =
      { trace := [.respond 400], status := 400,
        body := .jsonError ⟨stemsRequiredMsg, none, none⟩ } := by
  unfold processMix
  rw [if_pos h]

/-- The handler responds 400 with the loop's error body when the stems
array is non-empty but validation rejects. -/
theorem processMix_reject (rid : String) (reqBody : JSValue) (o : Oracles)
    (stemsL : List JSValue) (b : ErrorBody)
    (hstems : getField reqBody "stems" = .vArr stemsL) (hne : stemsL ≠ [])
    (hrej : validateLoop rid stemsL 0 [] = .reject b) :
    processMix rid reqBody o =
      { trace := [.respond 400], status := 400, body := .jsonError b } := by
  unfold processMix
  rw [hstems]
  have hcond : (!truthy (JSValue.vArr stemsL) || !isArray (JSValue.vArr stemsL) ||
      (match JSValue.vArr stemsL with
       | .vArr xs => xs.isEmpty | _ => true)) = false := by
    simp [truthy, isArray, List.isEmpty_eq_false.mpr hne]
  rw [if_neg (by simp [hcond])]
  simp only [arrayElems]
  rw [hrej]

/-- With valid stems and a failing download, the handler cleans up the
scratch files gathered so far and responds 500. -/
theorem processMix_dlfail (rid : String) (reqBody : JSValue) (o : Oracles)
    (stemsL : List JSValue) (vstems : List String)
    (evs : List Event) (tf : List String) (errMsg : String)
    (hstems : getField reqBody "stems" = .vArr stemsL) (hne : stemsL ≠ [])
    (hok : validateLoop rid stemsL 0 [] = .ok vstems)
    (hdl : downloadLoop rid o vstems 0 [] = (evs, tf, some errMsg)) :
    processMix rid reqBody o =
      { trace := evs ++ [.cleanupCall tf, .respond 500], status := 500,
        body := .jsonFail failedMixMsg errMsg rid } := by
  unfold processMix
  rw [hstems]
  have hcond : (!truthy (JSValue.vArr stemsL) || !isArray (JSValue.vArr stemsL) ||
      (match JSValue.vArr stemsL with
       | .vArr xs => xs.isEmpty | _ => true)) = false := by
    simp [truthy, isArray, List.isEmpty_eq_false.mpr hne]
  rw [if_neg (by simp [hcond])]
  simp only [arrayElems]
  rw [hok]
  simp only [afterValidation, hdl]

/-- The post-validation stage only ever responds 500 or 200. -/
theorem afterValidation_status (rid : String) (o : Oracles) (volumes : JSValue)
    (vstems : List String) :
    (afterValidation rid o volumes vstems).status = 500 ∨
    (afterValidation rid o volumes vstems).status = 200 := by
  unfold afterValidation
  rcases hdl : downloadLoop rid o vstems 0 [] with ⟨evs, tf, err⟩
  cases err with
  | some e => simp
  | none =>
    by_cases hm : o.mixExit ≠ 0
    · simp [hm]
    · by_cases ho : o.outputExists = true
      · simp [hm, ho]
      · simp [hm, ho]

/-- When the stems-presence condition does not hold, the `stems` field
is a non-empty array. -/
theorem cond_false_elim (reqBody : JSValue)
    (hc : ¬ (!truthy (getField reqBody "stems") ||
      !isArray (getField reqBody "stems") ||
      (match getField reqBody "stems" with
       | .vArr xs => xs.isEmpty | _ => true)) = true) :
    ∃ stemsL, getField reqBody "stems" = .vArr stemsL ∧ stemsL ≠ [] := by
  rcases hs : getField reqBody "stems" with _ | _ | b | q | _ | t | es | fs
  case vArr =>
    refine ⟨es, rfl, ?_⟩
    intro h0
    rw [hs, h0] at hc
    exact hc (by simp)
  all_goals (rw [hs] at hc; exact absurd (by simp [truthy, isArray]) hc)

/-! ### C6 -/

/-- C6: when the `stems` field is missing, not an array, or an empty
array, the handler responds 400 with the stems error and the fetcher is
never invoked — the trace holds no fetch attempt and no download. -/
theorem c6_missing_stems_no_fetch (rid : String) (reqBody : JSValue) (o : Oracles)
    (h : getField reqBody "stems" = .vUndefined ∨
      (∀ xs, getField reqBody "stems" ≠ .vArr xs) ∨
      getField reqBody "stems" = .vArr []) :
    (processMix rid reqBody o).status = 400 ∧
    (processMix rid reqBody o).body = .jsonError ⟨stemsRequiredMsg, none, none⟩ ∧
    (processMix rid reqBody o).trace = [Event.respond 400] ∧
    (∀ u, ¬ Event.fetchAttempt u ∈ (processMix rid reqBody o).trace) ∧
    (∀ k w p, ¬ Event.download k w p ∈ (processMix rid reqBody o).trace) := by
  have hcond : (!truthy (getField reqBody "stems") ||
      !isArray (getField reqBody "stems") ||
      (match getField reqBody "stems" with
       | .vArr xs => xs.isEmpty | _ => true)) = true := by
    rcases h with h | h | h
    · rw [h]; rfl
    · rcases hs : getField reqBody "stems" with _ | _ | b | q | _ | t | es | fs
      case vArr => exact absurd hs (h es)
      all_goals simp [truthy, isArray]
    · rw [h]; rfl
  rw [processMix_badshape rid reqBody o hcond]
  refine ⟨rfl, rfl, rfl, ?_, ?_⟩
  · intro u hu
    simp at hu
  · intro k w p hp
    simp at hp

/-- C6, witness: a request body with no `stems` field yields a 400 with
an empty trace apart from the response. -/
theorem c6_witness :
    (processMix "r6" (JSValue.vObj [("volumes", JSValue.vArr [])])
      ⟨fun _ => true, fun _ => "", 0, true, true⟩).status = 400 ∧
    (processMix "r6" (JSValue.vObj [("volumes", JSValue.vArr [])])
      ⟨fun _ => true, fun _ => "", 0, true, true⟩).trace = [Event.respond 400] := by
  have h := c6_missing_stems_no_fetch "r6" (JSValue.vObj [("volumes", JSValue.vArr [])])
    ⟨fun _ => true, fun _ => "", 0, true, true⟩ (Or.inl rfl)
  exact ⟨h.1, h.2.2.1⟩

/-! ### C5 -/

/-- C5: if the stems array holds a claim-invalid element, and `j` is the
first such index, the handler responds 400 reporting index `j` together
with the received value and the request id, and performs zero downloads
(no fetch attempt appears in the trace). -/
theorem c5_invalid_stem_rejected (rid : String) (reqBody : JSValue) (o : Oracles)
    (stemsL : List JSValue) (j : Nat) (sj : JSValue)
    (hstems : getField reqBody "stems" = .vArr stemsL)
    (hj : stemsL.get? j = some sj) (hinv : claimValidStem sj = false)
    (hvalid : ∀ k sk, k < j → stemsL.get? k = some sk → claimValidStem sk = true) :
    (processMix rid reqBody o).status = 400 ∧
    (processMix rid reqBody o).trace = [Event.respond 400] ∧
    (∀ u, ¬ Event.fetchAttempt u ∈ (processMix rid reqBody o).trace) ∧
    ∃ b, (processMix rid reqBody o).body = .jsonError b ∧
      (b.error = invalidStemMsg j ∨ b.error = invalidUrlMsg j) ∧
      b.requestId = some rid ∧ ∃ v, b.received = some v := by
  have hne : stemsL ≠ [] := by
    intro h0
    rw [h0] at hj
    simp at hj
  obtain ⟨b, hb, herr, hreq, hrecv⟩ :=
    validateLoop_first_invalid stemsL j sj rid 0 [] hj hinv hvalid
  rw [Nat.zero_add] at herr
  rw [processMix_reject rid reqBody o stemsL b hstems hne hb]
  exact ⟨rfl, rfl, by simp, b, rfl, herr, hreq, hrecv⟩

/-- C5, witness: with stems `["https://ok/a.wav", 3]` the offending
index is 1 and the handler responds 400 without fetching. -/
theorem c5_witness :
    (processMix "r5" (JSValue.vObj [("stems", JSValue.vArr
        [JSValue.vStr "https://ok/a.wav", JSValue.vNum 3])])
      ⟨fun _ => true, fun _ => "", 0, true, true⟩).status = 400 ∧
    (processMix "r5" (JSValue.vObj [("stems", JSValue.vArr
        [JSValue.vStr "https://ok/a.wav", JSValue.vNum 3])])
      ⟨fun _ => true, fun _ => "", 0, true, true⟩).trace = [Event.respond 400] := by
  have h := c5_invalid_stem_rejected "r5"
    (JSValue.vObj [("stems", JSValue.vArr
      [JSValue.vStr "https://ok/a.wav", JSValue.vNum 3])])
    ⟨fun _ => true, fun _ => "", 0, true, true⟩
    [JSValue.vStr "https://ok/a.wav", JSValue.vNum 3] 1 (JSValue.vNum 3)
    rfl rfl (by decide)
    (by
      intro k sk hk hks
      have hk0 : k = 0 := by omega
      subst hk0
      simp only [List.get?_cons_zero, Option.some_inj] at hks
      rw [← hks]
      decide)
  exact ⟨h.1, h.2.1⟩

/-! ### C4 -/

/-- C4: when validation succeeds but some stem's HTTP GET fails, the
handler responds 500, and the trace ends with a `cleanup` call followed
by the response, where the cleanup list contains the scratch path of
every file downloaded for the other stems of the same request. -/
theorem c4_download_failure_cleanup (rid : String) (reqBody : JSValue) (o : Oracles)
    (stemsL : List JSValue) (vstems : List String) (j : Nat) (u : String)
    (hstems : getField reqBody "stems" = .vArr stemsL)
    (hok : validateLoop rid stemsL 0 [] = .ok vstems)
    (hj : vstems.get? j = some u) (hu : o.fetchOk u = false) :
    (processMix rid reqBody o).status = 500 ∧
    ∃ pre fs, (processMix rid reqBody o).trace =
        pre ++ [Event.cleanupCall fs, Event.respond 500] ∧
      ∀ k w p, Event.download k w p ∈ (processMix rid reqBody o).trace → p ∈ fs := by
  have hne : stemsL ≠ [] := by
    intro h0
    subst h0
    rw [show validateLoop rid [] 0 [] = ValidationResult.ok [] from rfl] at hok
    cases hok
    simp at hj
  obtain ⟨evs, tf, errMsg, hdl, hdlmem, hacc⟩ :=
    downloadLoop_fail rid o vstems 0 [] ⟨j, u, hj, hu⟩
  rw [processMix_dlfail rid reqBody o stemsL vstems evs tf errMsg hstems hne hok hdl]
  refine ⟨rfl, evs, tf, rfl, ?_⟩
  intro k w p hp
  simp only [List.mem_append] at hp
  rcases hp with hp | hp
  · exact hdlmem k w p hp
  · simp at hp

/-- C4, witness: with two stems of which the second URL fails to fetch,
the handler responds 500 after a cleanup call covering the first stem's
downloaded file. -/
theorem c4_witness :
    (processMix "r4" (JSValue.vObj [("stems", JSValue.vArr
        [JSValue.vStr "u1", JSValue.vStr "u2"])])
      ⟨fun u => !(u = "u2"), fun _ => "404 Not Found", 0, true, true⟩).status = 500 ∧
    ∃ pre fs, (processMix "r4" (JSValue.vObj [("stems", JSValue.vArr
        [JSValue.vStr "u1", JSValue.vStr "u2"])])
      ⟨fun u => !(u = "u2"), fun _ => "404 Not Found", 0, true, true⟩).trace =
        pre ++ [Event.cleanupCall fs, Event.respond 500] ∧
      ∀ k w p, Event.download k w p ∈ (processMix "r4"
        (JSValue.vObj [("stems", JSValue.vArr
          [JSValue.vStr "u1", JSValue.vStr "u2"])])
        ⟨fun u => !(u = "u2"), fun _ => "404 Not Found", 0, true, true⟩).trace →
        p ∈ fs :=
  c4_download_failure_cleanup "r4"
    (JSValue.vObj [("stems", JSValue.vArr [JSValue.vStr "u1", JSValue.vStr "u2"])])
    ⟨fun u => !(u = "u2"), fun _ => "404 Not Found", 0, true, true⟩
    [JSValue.vStr "u1", JSValue.vStr "u2"] ["u1", "u2"] 1 "u2" rfl rfl rfl rfl

/-! ### C3 -/

/-- C3, counterexample: the validation failure for a missing `stems`
field responds 400 with a body that carries only the error string — the
`received` value and the `requestId` are absent, contrary to the
claim. -/
theorem c3_counterexample :
    (processMix "r0" (JSValue.vObj []) ⟨fun _ => true, fun _ => "", 0, true, true⟩).status
      = 400 ∧
    (processMix "r0" (JSValue.vObj []) ⟨fun _ => true, fun _ => "", 0, true, true⟩).body
      = .jsonError ⟨stemsRequiredMsg, none, none⟩ := by
  exact ⟨rfl, rfl⟩

/-- C3 (amended): every 400 validation-failure response either is the
stems-presence failure, whose body carries only the error string, or is
a per-stem failure, whose body carries the indexed error string, the
received offending value, and the request id. -/
theorem c3_validation_response_shape (rid : String) (reqBody : JSValue)
    (o : Oracles) (h : (processMix rid reqBody o).status = 400) :
    (processMix rid reqBody o).body = .jsonError ⟨stemsRequiredMsg, none, none⟩ ∨
    ∃ b, (processMix rid reqBody o).body = .jsonError b ∧
      b.requestId = some rid ∧ (∃ v, b.received = some v) ∧
      ∃ j, b.error = invalidStemMsg j ∨ b.error = invalidUrlMsg j := by
  by_cases hc : (!truthy (getField reqBody "stems") ||
      !isArray (getField reqBody "stems") ||
      (match getField reqBody "stems" with
       | .vArr xs => xs.isEmpty | _ => true)) = true
  · left
    rw [processMix_badshape rid reqBody o hc]
  · obtain ⟨stemsL, hstems, hne⟩ := cond_false_elim reqBody hc
    cases hv : validateLoop rid stemsL 0 [] with
    | reject b =>
      right
      rw [processMix_reject rid reqBody o stemsL b hstems hne hv]
      obtain ⟨hreq, hrecv, j, herr⟩ :=
        validateLoop_reject_shape stemsL rid 0 [] b hv
      exact ⟨b, rfl, hreq, hrecv, j, herr⟩
    | ok vstems =>
      exfalso
      have hout : processMix rid reqBody o =
          afterValidation rid o (getField reqBody "volumes") vstems := by
        unfold processMix
        rw [hstems]
        have hcond2 : (!truthy (JSValue.vArr stemsL) ||
            !isArray (JSValue.vArr stemsL) ||
            (match JSValue.vArr stemsL with
             | .vArr xs => xs.isEmpty | _ => true)) = false := by
          simp [truthy, isArray, List.isEmpty_eq_false.mpr hne]
        rw [if_neg (by simp [hcond2])]
        simp only [arrayElems]
        rw [hv]
      rw [hout] at h
      rcases afterValidation_status rid o (getField reqBody "volumes") vstems with
        hs | hs <;> rw [hs] at h <;> simp at h

/-- C3 (amended), witness: a request whose only stem is the number 5 is
rejected with a body carrying the index-0 error, the received value and
the request id. -/
theorem c3_witness :
    (processMix "r3" (JSValue.vObj [("stems", JSValue.vArr [JSValue.vNum 5])])
      ⟨fun _ => true, fun _ => "", 0, true, true⟩).body
        = .jsonError ⟨stemsRequiredMsg, none, none⟩ ∨
    ∃ b, (processMix "r3" (JSValue.vObj [("stems", JSValue.vArr [JSValue.vNum 5])])
      ⟨fun _ => true, fun _ => "", 0, true, true⟩).body = .jsonError b ∧
      b.requestId = some "r3" ∧ (∃ v, b.received = some v) ∧
      ∃ j, b.error = invalidStemMsg j ∨ b.error = invalidUrlMsg j :=
  c3_validation_response_shape "r3"
    (JSValue.vObj [("stems", JSValue.vArr [JSValue.vNum 5])])
    ⟨fun _ => true, fun _ => "", 0, true, true⟩ rfl

end MixingApi
